import Mathlib

/-!
Verification development for the Ising repository.

The Python sources are embedded shallowly:
* spins are rational-valued functions (the arrays/dicts hold the values ±1, but no
  algebraic fact below needs that restriction, so spins are arbitrary rationals);
* all arithmetic is exact (ℚ), so every "within floating tolerance" statement is
  settled at the stronger exact level;
* the process-wide random source is replaced by explicit oracles: the chosen site
  (np.random.randint / np.random.choice) is a parameter of each move, and the
  outcome of the comparison `np.random.random() < prob_flip` is a Boolean
  parameter `accept`.  Since `exp` is everywhere positive, `accept = true` is
  realizable in every state, and `accept = false` is realizable whenever the
  flip probability is below 1; universally quantified invariants over the
  oracle therefore cover every real execution, and each counterexample below
  only ever uses transitions of positive probability;
* Python faults (ZeroDivisionError, AttributeError) become an explicit error type;
* the flip probabilities themselves (which involve `exp`) are embedded as
  real-valued expressions, kept separate from the computable state transitions.
-/

namespace Ising

/-- Python-level faults that the embedded constructors and methods can raise. -/
inductive PyErr where
  | zeroDivisionError
  | attributeError
  | valueError
deriving DecidableEq

/-- Update-rule mode of NormalIsing (normalising.py line 8, the `mode` argument). -/
inductive Mode where
  | normal
  | self_identity
deriving DecidableEq

/-- Lattice site of the periodic lattice of side L and dimension dim
(normalising.py: an index tuple, with all arithmetic taken modulo `self.size`). -/
abbrev Site (L dim : ℕ) : Type := Fin dim → ZMod L

/-- Forward neighbor along dimension d: coordinate d is increased by 1 modulo L
(normalising.py lines 36-39). -/
def shiftUp {L dim : ℕ} (x : Site L dim) (d : Fin dim) : Site L dim :=
  Function.update x d (x d + 1)

/-- Backward neighbor along dimension d: coordinate d is decreased by 1 modulo L
(normalising.py lines 41-44). -/
def shiftDown {L dim : ℕ} (x : Site L dim) (d : Fin dim) : Site L dim :=
  Function.update x d (x d - 1)

/-- State of a NormalIsing instance (normalising.py `__init__`): the spin array plus
the cached `energy` and `magnetization` and the scalar parameters. -/
structure NState (L dim : ℕ) where
  spins : Site L dim → ℚ
  energy : ℚ
  magnetization : ℚ
  J : ℚ
  h : ℚ
  beta : ℚ
  mode : Mode
  epsilon : ℚ

/-- Sum of the forward neighbors of x, one per dimension
(normalising.py `_get_neighbors` with `only_forward=True`). -/
def forwardSum {L dim : ℕ} (sp : Site L dim → ℚ) (x : Site L dim) : ℚ :=
  ∑ d : Fin dim, sp (shiftUp x d)

/-- Sum of all 2·dim neighbors of x (normalising.py `_get_neighbors` with both
directions, as summed into `total_neighbor` in `metropolis_move`). -/
def neighborSum {L dim : ℕ} (sp : Site L dim → ℚ) (x : Site L dim) : ℚ :=
  ∑ d : Fin dim, (sp (shiftUp x d) + sp (shiftDown x d))

/-- Full energy recomputation, forward neighbors only, minus the field term
(normalising.py `_get_energy`, lines 47-54). -/
def latticeEnergy {L dim : ℕ} [NeZero L] (J h : ℚ) (sp : Site L dim → ℚ) : ℚ :=
  (∑ x : Site L dim, -J * sp x * forwardSum sp x) - h * ∑ x : Site L dim, sp x

/-- Full magnetization recomputation (normalising.py `_get_magnetization`). -/
def latticeMag {L dim : ℕ} [NeZero L] (sp : Site L dim → ℚ) : ℚ :=
  ∑ x : Site L dim, sp x

/-- The bond part of `latticeEnergy`, reshaped as a double sum over (site,
dimension) pairs; used only inside the proofs below. -/
def pairSum {L dim : ℕ} [NeZero L] (J : ℚ) (sp : Site L dim → ℚ) : ℚ :=
  ∑ x : Site L dim, ∑ d : Fin dim, -J * sp x * sp (shiftUp x d)

/-- The `delta_energy` computed by `metropolis_move` (normalising.py lines 65-76):
the classical formula in `normal` mode and in the majority branch of
`self_identity` mode, and the literal constant 0 in the minority branch. -/
def deltaEnergy {L dim : ℕ} (st : NState L dim) (x : Site L dim) : ℚ :=
  match st.mode with
  | .normal => 2 * st.J * st.spins x * neighborSum st.spins x + 2 * st.h * st.spins x
  | .self_identity =>
    if 0 ≤ st.spins x * neighborSum st.spins x then
      2 * st.J * st.spins x * neighborSum st.spins x + 2 * st.h * st.spins x
    else 0

/-- One Metropolis move (normalising.py `metropolis_move`, lines 60-80) at the
randomly chosen site x; `accept` is the outcome of `np.random.random() < prob_flip`.
On acceptance the spin is negated, the energy cache is incremented by
`delta_energy` and the magnetization cache by twice the new spin value. -/
def metropolisMove {L dim : ℕ} (st : NState L dim) (x : Site L dim)
    (accept : Bool) : NState L dim :=
  if accept then
    { st with
      spins := Function.update st.spins x (-(st.spins x))
      energy := st.energy + deltaEnergy st x
      magnetization := st.magnetization + 2 * (-(st.spins x)) }
  else st

/-- The flip probability compared against `np.random.random()` in
`metropolis_move` (normalising.py lines 65-76). -/
noncomputable def prob_flip {L dim : ℕ} (st : NState L dim) (x : Site L dim) : ℝ :=
  match st.mode with
  | .normal => Real.exp (-(st.beta : ℝ) * (deltaEnergy st x : ℝ))
  | .self_identity =>
    if 0 ≤ st.spins x * neighborSum st.spins x then
      Real.exp (-(st.beta : ℝ) * (deltaEnergy st x : ℝ))
    else 1 - (st.epsilon : ℝ)

/-- A NormalIsing state as produced by `__init__` (normalising.py lines 8-18) once
the initial spin array sp0 (the oracle for `_reset_spin`) is fixed: both caches
are full recomputations from the fresh spins, and beta is 1/T. -/
def freshNState (L dim : ℕ) [NeZero L] (T J h : ℚ) (mode : Mode) (epsilon : ℚ)
    (sp0 : Site L dim → ℚ) : NState L dim :=
  { spins := sp0
    energy := latticeEnergy J h sp0
    magnetization := latticeMag sp0
    J := J
    h := h
    beta := 1 / T
    mode := mode
    epsilon := epsilon }

/-- NormalIsing constructor with the Python division fault made explicit:
`self.beta = 1./T` (normalising.py line 12) raises ZeroDivisionError at T = 0 and
performs no other validation of T. -/
def mkNormalIsing (L dim : ℕ) [NeZero L] (T J h : ℚ) (mode : Mode) (epsilon : ℚ)
    (sp0 : Site L dim → ℚ) : Except PyErr (NState L dim) :=
  if T = 0 then .error .zeroDivisionError
  else .ok (freshNState L dim T J h mode epsilon sp0)

/-- Folding a list of Metropolis moves (site and acceptance oracle per move). -/
def runMoves {L dim : ℕ} (st : NState L dim) (ms : List (Site L dim × Bool)) :
    NState L dim :=
  ms.foldl (fun s m => metropolisMove s m.1 m.2) st

/-- The incremental-cache invariant for NormalIsing: both caches equal a full
recomputation from the current spins. -/
def cacheOK {L dim : ℕ} [NeZero L] (st : NState L dim) : Prop :=
  st.energy = latticeEnergy st.J st.h st.spins ∧
    st.magnetization = latticeMag st.spins

/-- The magnetization half of the cache invariant. -/
def magOK {L dim : ℕ} [NeZero L] (st : NState L dim) : Prop :=
  st.magnetization = latticeMag st.spins

/-- The bond probability of `wolff_move` exactly as the code computes it
(normalising.py line 83): `p = 1.0 - np.exp(-2.0 * self.beta)` — the coupling J
does not appear. -/
noncomputable def wolff_p (beta : ℚ) : ℝ :=
  1 - Real.exp (-2 * (beta : ℝ))

/-- The Wolff bond probability as the specification states it:
p = 1 − exp(−2·β·J). -/
noncomputable def wolff_p_spec (beta J : ℚ) : ℝ :=
  1 - Real.exp (-2 * (beta : ℝ) * (J : ℝ))

/-- State of a GraphIsing instance (graphising.py `__init__`): a networkx graph is
embedded as its edge list over a finite node type V (each undirected edge listed
once); `influencer_nodes` is `none` when the constructor branch at line 18 was not
taken, so that the attribute simply does not exist on the Python object. -/
structure GState (V : Type) where
  edges : List (V × V)
  spins : V → ℚ
  energy : ℚ
  magnetization : ℚ
  J : ℚ
  beta : ℚ
  influencer_nodes : Option (List V)

/-- Energy summed over the edge list (graphising.py `_get_energy`, lines 26-30;
identically directedgraphising.py `compute_energy`, lines 21-26, where the list
holds the directed edges). -/
def gEnergy {V : Type} (J : ℚ) (edges : List (V × V)) (sp : V → ℚ) : ℚ :=
  (edges.map fun e => -J * sp e.1 * sp e.2).sum

/-- Magnetization: sum of all node spins (graphising.py `_get_magnetization`). -/
def gMag {V : Type} [Fintype V] (sp : V → ℚ) : ℚ :=
  ∑ v : V, sp v

/-- Sum of the spins of the networkx neighbors of v, computed from the edge list:
an edge contributes its other endpoint whenever v is one of its endpoints
(graphising.py line 40). -/
def gNeighborSum {V : Type} [DecidableEq V] (edges : List (V × V)) (sp : V → ℚ)
    (v : V) : ℚ :=
  (edges.map fun e => if e.1 = v then sp e.2 else if e.2 = v then sp e.1 else 0).sum

/-- GraphIsing state as built by `__init__` (graphising.py lines 10-23) for a given
random initial spin assignment sp0: with an influent association the spins are
overwritten to +1 on the pinned nodes and −1 elsewhere and the pinned set is
stored; without one the `influencer_nodes` attribute is never assigned. -/
def graphIsingState {V : Type} [Fintype V] [DecidableEq V] (edges : List (V × V))
    (T J : ℚ) (infl : Option (List V)) (sp0 : V → ℚ) : GState V :=
  let sp := match infl with
    | none => sp0
    | some pins => fun v => if v ∈ pins then 1 else -1
  { edges := edges
    spins := sp
    energy := gEnergy J edges sp
    magnetization := gMag sp
    J := J
    beta := 1 / T
    influencer_nodes := infl }

/-- GraphIsing constructor with the division fault of `self.beta = 1.0 / T`
(graphising.py line 16) made explicit. -/
def mkGraphIsing {V : Type} [Fintype V] [DecidableEq V] (edges : List (V × V))
    (T J : ℚ) (infl : Option (List V)) (sp0 : V → ℚ) : Except PyErr (GState V) :=
  if T = 0 then .error .zeroDivisionError
  else .ok (graphIsingState edges T J infl sp0)

/-- One GraphIsing move (graphising.py `move`, lines 35-45): reading
`self.influencer_nodes` fails with AttributeError when the attribute was never
assigned; a pinned chosen node returns immediately; otherwise Metropolis with
`delta_E <= 0 or np.random.rand() < exp(-beta*delta_E)`, whose random comparison
is the `accept` oracle. -/
def gMove {V : Type} [Fintype V] [DecidableEq V] (st : GState V) (node : V)
    (accept : Bool) : Except PyErr (GState V) :=
  match st.influencer_nodes with
  | none => .error .attributeError
  | some pins =>
    if node ∈ pins then .ok st
    else
      let dE := 2 * st.J * st.spins node * gNeighborSum st.edges st.spins node
      if decide (dE ≤ 0) || accept then
        .ok { st with
          spins := Function.update st.spins node (-(st.spins node))
          energy := st.energy + dE
          magnetization := st.magnetization + 2 * (-(st.spins node)) }
      else .ok st

/-- One GraphIsing move as a state transformer; a raised error leaves the
object unchanged (the Python exception propagates without mutating state). -/
def gStep {V : Type} [Fintype V] [DecidableEq V] (st : GState V)
    (m : V × Bool) : GState V :=
  match gMove st m.1 m.2 with
  | .ok s2 => s2
  | .error _ => st

/-- Folding a list of GraphIsing moves. -/
def gRun {V : Type} [Fintype V] [DecidableEq V] (st : GState V)
    (ms : List (V × Bool)) : GState V :=
  ms.foldl gStep st

/-- The incremental-cache invariant for GraphIsing. -/
def gCacheOK {V : Type} [Fintype V] (st : GState V) : Prop :=
  st.energy = gEnergy st.J st.edges st.spins ∧ st.magnetization = gMag st.spins

/-- State of a DirectedGraphIsing instance (directedgraphising.py `__init__`):
the edge list holds the directed edges. -/
structure DGState (V : Type) where
  edges : List (V × V)
  spins : V → ℚ
  energy : ℚ
  magnetization : ℚ
  J : ℚ
  beta : ℚ

/-- Sum of the spins of the incoming neighbors (predecessors) of v
(directedgraphising.py line 36). -/
def predSum {V : Type} [DecidableEq V] (edges : List (V × V)) (sp : V → ℚ)
    (v : V) : ℚ :=
  (edges.map fun e => if e.2 = v then sp e.1 else 0).sum

/-- DirectedGraphIsing state as built by `__init__` (directedgraphising.py
lines 9-19): both caches recomputed from the fresh random spins sp0. -/
def mkDGState {V : Type} [Fintype V] [DecidableEq V] (edges : List (V × V))
    (T J : ℚ) (sp0 : V → ℚ) : DGState V :=
  { edges := edges
    spins := sp0
    energy := gEnergy J edges sp0
    magnetization := gMag sp0
    J := J
    beta := 1 / T }

/-- One DirectedGraphIsing move (directedgraphising.py `metropolis_step`,
lines 31-41): delta_E uses the predecessors only, and on acceptance the energy
cache is incremented by that predecessor-only delta. -/
def dgMove {V : Type} [Fintype V] [DecidableEq V] (st : DGState V) (node : V)
    (accept : Bool) : DGState V :=
  let dE := 2 * st.J * st.spins node * predSum st.edges st.spins node
  if decide (dE ≤ 0) || accept then
    { st with
      spins := Function.update st.spins node (-(st.spins node))
      energy := st.energy + dE
      magnetization := st.magnetization + 2 * (-(st.spins node)) }
  else st

/-- Folding a list of DirectedGraphIsing moves. -/
def dgRun {V : Type} [Fintype V] [DecidableEq V] (st : DGState V)
    (ms : List (V × Bool)) : DGState V :=
  ms.foldl (fun s m => dgMove s m.1 m.2) st

/-- The magnetization half of the cache invariant for DirectedGraphIsing. -/
def dgMagOK {V : Type} [Fintype V] (st : DGState V) : Prop :=
  st.magnetization = gMag st.spins

/-- State of a DualGraphIsing instance (dualgraphising.py `__init__`): two spin
layers on the same edge list; note that the class maintains no energy or
magnetization caches at all. -/
structure DualState (V : Type) where
  edges : List (V × V)
  spins_A : V → ℚ
  spins_B : V → ℚ
  J_A : ℚ
  J_B : ℚ
  C : ℚ
  beta : ℚ

/-- DualGraphIsing constructor (dualgraphising.py lines 11-20) with the random
initial layers supplied as oracles. -/
def mkDualState {V : Type} (edges : List (V × V)) (T J_A J_B C : ℚ)
    (spA spB : V → ℚ) : DualState V :=
  { edges := edges
    spins_A := spA
    spins_B := spB
    J_A := J_A
    J_B := J_B
    C := C
    beta := 1 / T }

/-- The `_reset_spin(to_value)` branch of dualgraphising.py (lines 24-26): both
layers set to the constant value. -/
def dualReset {V : Type} (st : DualState V) (x : ℚ) : DualState V :=
  { st with spins_A := fun _ => x, spins_B := fun _ => x }

/-- Total two-layer energy with interlayer coupling
(dualgraphising.py `_get_energy`, lines 31-39). -/
def dualEnergy {V : Type} [Fintype V] (st : DualState V) : ℚ :=
  (st.edges.map fun e => -st.J_A * st.spins_A e.1 * st.spins_A e.2).sum
    + (st.edges.map fun e => -st.J_B * st.spins_B e.1 * st.spins_B e.2).sum
    + ∑ v : V, -st.C * st.spins_A v * st.spins_B v

/-- The `delta_E` of the layer-A step of `move` (dualgraphising.py line 57):
`2 * s * (J_A * neighbor_sum + C * other[node])`. -/
def dualDeltaA {V : Type} [DecidableEq V] (st : DualState V) (node : V) : ℚ :=
  2 * st.spins_A node *
    (st.J_A * gNeighborSum st.edges st.spins_A node + st.C * st.spins_B node)

/-- The `delta_E` of the layer-B step of `move` (dualgraphising.py line 57). -/
def dualDeltaB {V : Type} [DecidableEq V] (st : DualState V) (node : V) : ℚ :=
  2 * st.spins_B node *
    (st.J_B * gNeighborSum st.edges st.spins_B node + st.C * st.spins_A node)

/-- The layer-A half of `move` (dualgraphising.py lines 49-59, iteration 'A'). -/
def dualStepA {V : Type} [DecidableEq V] (st : DualState V) (node : V)
    (accept : Bool) : DualState V :=
  let dE := dualDeltaA st node
  if decide (dE ≤ 0) || accept then
    { st with spins_A := Function.update st.spins_A node (-(st.spins_A node)) }
  else st

/-- The layer-B half of `move` (dualgraphising.py lines 49-59, iteration 'B'). -/
def dualStepB {V : Type} [DecidableEq V] (st : DualState V) (node : V)
    (accept : Bool) : DualState V :=
  let dE := dualDeltaB st node
  if decide (dE ≤ 0) || accept then
    { st with spins_B := Function.update st.spins_B node (-(st.spins_B node)) }
  else st

/-- One full call of DualGraphIsing.move (dualgraphising.py lines 47-59): the
`for layer in ['A', 'B']` loop performs the layer-A step and then the layer-B
step, each with its own independently chosen random node and acceptance draw;
the B step reads the already-updated layer A. -/
def dualMove {V : Type} [DecidableEq V] (st : DualState V) (nA : V) (aA : Bool)
    (nB : V) (aB : Bool) : DualState V :=
  dualStepB (dualStepA st nA aA) nB aB

/-- Iterating Metropolis moves under a stream oracle: `runOracle st orc n` is the
state after the first n moves, move k using `orc k`. -/
def runOracle {L dim : ℕ} (st : NState L dim) (orc : ℕ → Site L dim × Bool) :
    ℕ → NState L dim
  | 0 => st
  | n + 1 => runOracle (metropolisMove st (orc 0).1 (orc 0).2) (fun k => orc (k + 1)) n

/-- The inner trial loop of `iterations_to_treshold` (utils.py lines 179-185) on a
NormalIsing model: execute moves one at a time; after each move compare
`model.magnetization * (1.0 / model.size)` — NormalIsing's `size` attribute is the
side length L — against the threshold, returning the index of the first crossing
move, or `none` when the `max_step` budget is exhausted. -/
def trialSteps {L dim : ℕ} : NState L dim → (ℕ → Site L dim × Bool) → ℕ → ℚ →
    Option ℕ
  | _, _, 0, _ => none
  | st, orc, fuel + 1, thr =>
    let st2 := metropolisMove st (orc 0).1 (orc 0).2
    if thr < st2.magnetization * (1 / (L : ℚ)) then some 0
    else Option.map (fun n => n + 1) (trialSteps st2 (fun k => orc (k + 1)) fuel thr)

/-- The per-value loop of `iterations_to_treshold` (utils.py lines 174-187): one
fresh model per trial (its random initial spins and its move oracle are the
trial data), and only trials that reached the threshold append their step index. -/
def iterationsToTresholdVar {L dim : ℕ} [NeZero L] (T J h : ℚ) (mode : Mode)
    (epsilon : ℚ)
    (trials : List ((Site L dim → ℚ) × (ℕ → Site L dim × Bool)))
    (max_step : ℕ) (thr : ℚ) : List ℕ :=
  trials.filterMap fun tr =>
    trialSteps (freshNState L dim T J h mode epsilon tr.1) tr.2 max_step thr

/-- Normalized accumulator of compute_properties (utils.py lines 26-57): a moment
sum over the n = n_cycles·n_average samples divided by n. -/
def sampleMean (n : ℕ) (f : Fin n → ℚ) : ℚ :=
  (∑ i : Fin n, f i) / n

/-- One entry of the returned susceptibility list
(utils.py line 70: `fact * (av_m2 - av_m**2) / (k_B * T)` with k_B = 1,
fact = 1/N); the ms are the magnetization samples of that swept value. -/
def chiEntry (N T : ℚ) (n : ℕ) (ms : Fin n → ℚ) : ℚ :=
  (1 / N) * (sampleMean n (fun i => ms i ^ 2) - sampleMean n ms ^ 2) / (1 * T)

/-- One entry of the returned specific-heat list
(utils.py line 69: `fact * (av_e2 - av_e**2) / (k_B * T**2)`). -/
def CEntry (N T : ℚ) (n : ℕ) (es : Fin n → ℚ) : ℚ :=
  (1 / N) * (sampleMean n (fun i => es i ^ 2) - sampleMean n es ^ 2) / (1 * T ^ 2)

/-- Per-swept-value measurement data of compute_properties: the temperature in
force when the entry is stored (utils.py line 60: `T = 1. / model.beta`) and the
magnetization/energy samples taken at lines 46-51. -/
structure MeasurePoint (n : ℕ) where
  T : ℚ
  ms : Fin n → ℚ
  es : Fin n → ℚ

/-- The returned `results['chi']` sequence: one chiEntry per swept value
(utils.py lines 19-70). -/
def chiList (N : ℚ) (n : ℕ) (pts : List (MeasurePoint n)) : List ℚ :=
  pts.map fun p => chiEntry N p.T n p.ms

/-- The returned `results['C']` sequence: one CEntry per swept value. -/
def CList (N : ℚ) (n : ℕ) (pts : List (MeasurePoint n)) : List ℚ :=
  pts.map fun p => CEntry N p.T n p.es

/-- The all-zero site index, used in the concrete examples below. -/
def exSite {L dim : ℕ} : Site L dim := fun _ => 0

/-- Concrete two-site chain (L = 2, dim = 1) in self_identity mode with T = 2,
J = 1, h = 0, ε = 1/4 and spins (+1, −1); site 0 is a minority spin. -/
def exSelfId : NState 2 1 :=
  freshNState 2 1 2 1 0 Mode.self_identity (1/4) fun x => if x 0 = 0 then 1 else -1

/-- Concrete one-site lattice (L = 1, dim = 1) in normal mode with T = 2, J = 1,
h = 0 and spin +1; its unique site is its own neighbor in both directions. -/
def exL1 : NState 1 1 :=
  freshNState 1 1 2 1 0 Mode.normal (1/2) fun _ => 1

/-- Concrete 2×2 lattice in normal mode with T = 2, J = 1, h = 0, all spins +1. -/
def exLattice22 : NState 2 2 :=
  freshNState 2 2 2 1 0 Mode.normal (1/2) fun _ => 1

/-- Concrete DirectedGraphIsing on the directed 3-cycle 0→1→2→0 with T = 2,
J = 1 and all spins +1. -/
def exDirected : DGState (Fin 3) :=
  mkDGState [(0, 1), (1, 2), (2, 0)] 2 1 fun _ => 1

/-- Concrete DualGraphIsing on the 4-node cycle with T = 2, J_A = J_B = 1,
C = 1/5 and both layers reset to +1 (Scenario C of the specification). -/
def exDual : DualState (Fin 4) :=
  dualReset (mkDualState [(0, 1), (1, 2), (2, 3), (3, 0)] 2 1 1 (1/5)
    (fun _ => 1) (fun _ => 1)) 1

/-! ### Lattice neighbor geometry -/

theorem shiftUp_shiftDown {L dim : ℕ} (v : Site L dim) (d : Fin dim) :
    shiftUp (shiftDown v d) d = v := by
  funext i
  by_cases hi : i = d
  · subst hi
    simp only [shiftUp, shiftDown, Function.update_same]
    ring
  · simp only [shiftUp, shiftDown, Function.update_noteq hi]

theorem shiftDown_shiftUp {L dim : ℕ} (v : Site L dim) (d : Fin dim) :
    shiftDown (shiftUp v d) d = v := by
  funext i
  by_cases hi : i = d
  · subst hi
    simp only [shiftUp, shiftDown, Function.update_same]
    ring
  · simp only [shiftUp, shiftDown, Function.update_noteq hi]

theorem shiftUp_ne_self {L dim : ℕ} (h1 : (1 : ZMod L) ≠ 0) (x : Site L dim)
    (d : Fin dim) : shiftUp x d ≠ x := by
  intro hc
  have hd := congrFun hc d
  simp only [shiftUp, Function.update_same] at hd
  exact h1 (by linear_combination hd)

theorem shiftDown_ne_self {L dim : ℕ} (h1 : (1 : ZMod L) ≠ 0) (x : Site L dim)
    (d : Fin dim) : shiftDown x d ≠ x := by
  intro hc
  have hd := congrFun hc d
  simp only [shiftDown, Function.update_same] at hd
  exact h1 (by linear_combination -hd)

theorem shiftUp_eq_iff {L dim : ℕ} (x v : Site L dim) (d : Fin dim) :
    shiftUp x d = v ↔ x = shiftDown v d := by
  constructor
  · intro hc
    rw [← hc, shiftDown_shiftUp]
  · intro hc
    rw [hc, shiftUp_shiftDown]

/-! ### Effect of one spin flip on the recomputed aggregates -/

theorem sum_update_neg {ι : Type*} [Fintype ι] [DecidableEq ι] (f : ι → ℚ) (v : ι) :
    (∑ x : ι, Function.update f v (-(f v)) x) = (∑ x : ι, f x) - 2 * f v := by
  rw [Finset.sum_update_of_mem (Finset.mem_univ v),
    Finset.sum_eq_sum_diff_singleton_add (Finset.mem_univ v) f]
  ring

theorem latticeEnergy_eq_pairSum {L dim : ℕ} [NeZero L] (J h : ℚ)
    (sp : Site L dim → ℚ) :
    latticeEnergy J h sp = pairSum J sp - h * ∑ x : Site L dim, sp x := by
  unfold latticeEnergy pairSum forwardSum
  congr 1
  refine Finset.sum_congr rfl fun x _ => ?_
  rw [Finset.mul_sum]

theorem pairSum_flip {L dim : ℕ} [NeZero L] (h1 : (1 : ZMod L) ≠ 0) (J : ℚ)
    (sp : Site L dim → ℚ) (v : Site L dim) :
    pairSum J (Function.update sp v (-(sp v))) =
      pairSum J sp + 2 * J * sp v * neighborSum sp v := by
  have hupv : ∀ d : Fin dim, shiftUp v d ≠ v := fun d => shiftUp_ne_self h1 v d
  have hvdn : ∀ d : Fin dim, v ≠ shiftDown v d := fun d hc =>
    shiftDown_ne_self h1 v d hc.symm
  have key : ∀ d : Fin dim, ∀ x : Site L dim,
      -J * Function.update sp v (-(sp v)) x *
          Function.update sp v (-(sp v)) (shiftUp x d) -
        -J * sp x * sp (shiftUp x d) =
      (if x = v then 2 * J * sp v * sp (shiftUp v d) else 0) +
        (if x = shiftDown v d then 2 * J * sp v * sp (shiftDown v d) else 0) := by
    intro d x
    by_cases hx : x = v
    · subst hx
      rw [Function.update_same, Function.update_noteq (hupv d), if_pos rfl,
        if_neg (hvdn d)]
      ring
    · by_cases hx2 : x = shiftDown v d
      · have hupx : shiftUp x d = v := (shiftUp_eq_iff x v d).mpr hx2
        rw [Function.update_noteq hx, hupx, Function.update_same, if_neg hx,
          if_pos hx2, hx2]
        ring
      · have hupx : shiftUp x d ≠ v := fun hc => hx2 ((shiftUp_eq_iff x v d).mp hc)
        rw [Function.update_noteq hx, Function.update_noteq hupx, if_neg hx,
          if_neg hx2]
        ring
  have main : ∀ d : Fin dim,
      (∑ x : Site L dim,
        (-J * Function.update sp v (-(sp v)) x *
            Function.update sp v (-(sp v)) (shiftUp x d) -
          -J * sp x * sp (shiftUp x d))) =
      2 * J * sp v * sp (shiftUp v d) + 2 * J * sp v * sp (shiftDown v d) := by
    intro d
    rw [Finset.sum_congr rfl fun x _ => key d x, Finset.sum_add_distrib]
    simp [Finset.sum_ite_eq', Finset.mem_univ]
  have expand : pairSum J (Function.update sp v (-(sp v))) - pairSum J sp =
      ∑ d : Fin dim,
        (2 * J * sp v * sp (shiftUp v d) + 2 * J * sp v * sp (shiftDown v d)) := by
    unfold pairSum
    rw [← Finset.sum_sub_distrib,
      Finset.sum_congr rfl fun x _ => (Finset.sum_sub_distrib).symm,
      Finset.sum_comm]
    exact Finset.sum_congr rfl fun d _ => main d
  have nb : (∑ d : Fin dim,
      (2 * J * sp v * sp (shiftUp v d) + 2 * J * sp v * sp (shiftDown v d))) =
      2 * J * sp v * neighborSum sp v := by
    unfold neighborSum
    rw [Finset.mul_sum]
    exact Finset.sum_congr rfl fun d _ => by ring
  linarith [expand, nb]

theorem latticeEnergy_flip {L dim : ℕ} [NeZero L] (h1 : (1 : ZMod L) ≠ 0)
    (J h : ℚ) (sp : Site L dim → ℚ) (v : Site L dim) :
    latticeEnergy J h (Function.update sp v (-(sp v))) =
      latticeEnergy J h sp + 2 * J * sp v * neighborSum sp v + 2 * h * sp v := by
  rw [latticeEnergy_eq_pairSum, latticeEnergy_eq_pairSum, pairSum_flip h1,
    sum_update_neg]
  ring

theorem latticeMag_flip {L dim : ℕ} [NeZero L] (sp : Site L dim → ℚ)
    (v : Site L dim) :
    latticeMag (Function.update sp v (-(sp v))) = latticeMag sp - 2 * sp v := by
  unfold latticeMag
  exact sum_update_neg sp v

/-! ### The Metropolis move preserves the caches (lattice, normal mode) -/

theorem deltaEnergy_normal {L dim : ℕ} (st : NState L dim) (x : Site L dim)
    (hm : st.mode = Mode.normal) :
    deltaEnergy st x =
      2 * st.J * st.spins x * neighborSum st.spins x + 2 * st.h * st.spins x := by
  unfold deltaEnergy
  rw [hm]

theorem deltaEnergy_minority {L dim : ℕ} (st : NState L dim) (x : Site L dim)
    (hm : st.mode = Mode.self_identity)
    (hmin : st.spins x * neighborSum st.spins x < 0) :
    deltaEnergy st x = 0 := by
  unfold deltaEnergy
  rw [hm]
  exact if_neg (not_le.mpr hmin)

theorem metropolisMove_mode {L dim : ℕ} (st : NState L dim) (x : Site L dim)
    (a : Bool) : (metropolisMove st x a).mode = st.mode := by
  cases a <;> rfl

theorem metropolisMove_cacheOK {L dim : ℕ} [NeZero L] (h1 : (1 : ZMod L) ≠ 0)
    (st : NState L dim) (x : Site L dim) (a : Bool) (hm : st.mode = Mode.normal)
    (hok : cacheOK st) : cacheOK (metropolisMove st x a) := by
  cases a with
  | false => exact hok
  | true =>
    obtain ⟨he, hmg⟩ := hok
    constructor
    · show st.energy + deltaEnergy st x =
        latticeEnergy st.J st.h (Function.update st.spins x (-(st.spins x)))
      rw [latticeEnergy_flip h1, he, deltaEnergy_normal st x hm]
      ring
    · show st.magnetization + 2 * (-(st.spins x)) =
        latticeMag (Function.update st.spins x (-(st.spins x)))
      rw [latticeMag_flip, hmg]
      ring

theorem runMoves_cacheOK {L dim : ℕ} [NeZero L] (h1 : (1 : ZMod L) ≠ 0) :
    ∀ (ms : List (Site L dim × Bool)) (st : NState L dim),
      st.mode = Mode.normal → cacheOK st → cacheOK (runMoves st ms) := by
  intro ms
  induction ms with
  | nil => exact fun st _ hok => hok
  | cons m rest ih =>
    intro st hm hok
    exact ih (metropolisMove st m.1 m.2)
      ((metropolisMove_mode st m.1 m.2).trans hm)
      (metropolisMove_cacheOK h1 st m.1 m.2 hm hok)

/-! ### The magnetization cache is maintained in every mode -/

theorem metropolisMove_magOK {L dim : ℕ} [NeZero L] (st : NState L dim)
    (x : Site L dim) (a : Bool) (hok : magOK st) : magOK (metropolisMove st x a) := by
  cases a with
  | false => exact hok
  | true =>
    show st.magnetization + 2 * (-(st.spins x)) =
      latticeMag (Function.update st.spins x (-(st.spins x)))
    rw [latticeMag_flip, hok]
    ring

theorem runMoves_magOK {L dim : ℕ} [NeZero L] :
    ∀ (ms : List (Site L dim × Bool)) (st : NState L dim),
      magOK st → magOK (runMoves st ms) := by
  intro ms
  induction ms with
  | nil => exact fun st hok => hok
  | cons m rest ih =>
    intro st hok
    exact ih (metropolisMove st m.1 m.2) (metropolisMove_magOK st m.1 m.2 hok)

/-! ### GraphIsing: flip effect and cache preservation -/

theorem gEnergy_flip {V : Type} [DecidableEq V] (J : ℚ) (edges : List (V × V))
    (sp : V → ℚ) (v : V) (hloop : ∀ e ∈ edges, e.1 ≠ e.2) :
    gEnergy J edges (Function.update sp v (-(sp v))) =
      gEnergy J edges sp + 2 * J * sp v * gNeighborSum edges sp v := by
  induction edges with
  | nil => simp [gEnergy, gNeighborSum]
  | cons e es ih =>
    have hne : e.1 ≠ e.2 := hloop e (List.mem_cons_self e es)
    have ihe := ih fun e2 he2 => hloop e2 (List.mem_cons_of_mem e he2)
    simp only [gEnergy, gNeighborSum, List.map_cons, List.sum_cons] at ihe ⊢
    by_cases hv1 : e.1 = v
    · have hv2 : e.2 ≠ v := fun hc => hne (by rw [hv1, hc])
      rw [hv1, Function.update_same, Function.update_noteq hv2, if_pos rfl]
      linear_combination ihe
    · by_cases hv2 : e.2 = v
      · rw [hv2, Function.update_same, Function.update_noteq hv1, if_neg hv1,
          if_pos rfl]
        linear_combination ihe
      · rw [Function.update_noteq hv1, Function.update_noteq hv2, if_neg hv1,
          if_neg hv2]
        linear_combination ihe

theorem gMag_flip {V : Type} [Fintype V] [DecidableEq V] (sp : V → ℚ) (v : V) :
    gMag (Function.update sp v (-(sp v))) = gMag sp - 2 * sp v := by
  unfold gMag
  exact sum_update_neg sp v

theorem gStep_cacheOK {V : Type} [Fintype V] [DecidableEq V] (st : GState V)
    (m : V × Bool) (hloop : ∀ e ∈ st.edges, e.1 ≠ e.2) (hok : gCacheOK st) :
    gCacheOK (gStep st m) ∧ (gStep st m).edges = st.edges := by
  unfold gStep gMove
  cases hinfl : st.influencer_nodes with
  | none => exact ⟨hok, rfl⟩
  | some pins =>
    simp only []
    by_cases hpin : m.1 ∈ pins
    · rw [if_pos hpin]
      exact ⟨hok, rfl⟩
    · rw [if_neg hpin]
      by_cases hacc :
          (decide (2 * st.J * st.spins m.1 * gNeighborSum st.edges st.spins m.1 ≤ 0)
            || m.2) = true
      · rw [if_pos hacc]
        refine ⟨⟨?_, ?_⟩, rfl⟩
        · show st.energy + 2 * st.J * st.spins m.1 * gNeighborSum st.edges st.spins m.1 =
            gEnergy st.J st.edges (Function.update st.spins m.1 (-(st.spins m.1)))
          rw [gEnergy_flip st.J st.edges st.spins m.1 hloop, hok.1]
        · show st.magnetization + 2 * (-(st.spins m.1)) =
            gMag (Function.update st.spins m.1 (-(st.spins m.1)))
          rw [gMag_flip, hok.2]
          ring
      · rw [if_neg hacc]
        exact ⟨hok, rfl⟩

theorem gRun_cacheOK {V : Type} [Fintype V] [DecidableEq V] :
    ∀ (ms : List (V × Bool)) (st : GState V),
      (∀ e ∈ st.edges, e.1 ≠ e.2) → gCacheOK st → gCacheOK (gRun st ms) := by
  intro ms
  induction ms with
  | nil => exact fun st _ hok => hok
  | cons m rest ih =>
    intro st hloop hok
    obtain ⟨hok2, hedges⟩ := gStep_cacheOK st m hloop hok
    exact ih (gStep st m) (by rw [hedges]; exact hloop) hok2

/-! ### GraphIsing: pinned nodes -/

theorem gMove_pinned {V : Type} [Fintype V] [DecidableEq V] (st : GState V)
    (pins : List V) (hinfl : st.influencer_nodes = some pins) (node : V)
    (hv : node ∈ pins) (a : Bool) : gMove st node a = Except.ok st := by
  unfold gMove
  rw [hinfl]
  exact if_pos hv

theorem gStep_pinned_spin {V : Type} [Fintype V] [DecidableEq V] (st : GState V)
    (pins : List V) (hinfl : st.influencer_nodes = some pins) (v : V)
    (hv : v ∈ pins) (m : V × Bool) :
    (gStep st m).spins v = st.spins v ∧
      (gStep st m).influencer_nodes = some pins := by
  unfold gStep gMove
  simp only [hinfl]
  by_cases hpin : m.1 ∈ pins
  · rw [if_pos hpin]
    exact ⟨rfl, hinfl⟩
  · have hvm : v ≠ m.1 := fun hc => hpin (hc ▸ hv)
    rw [if_neg hpin]
    by_cases hacc :
        (decide (2 * st.J * st.spins m.1 * gNeighborSum st.edges st.spins m.1 ≤ 0)
          || m.2) = true
    · rw [if_pos hacc]
      exact ⟨Function.update_noteq hvm _ _, rfl⟩
    · rw [if_neg hacc]
      exact ⟨rfl, hinfl⟩

theorem gRun_pinned_spin {V : Type} [Fintype V] [DecidableEq V] (pins : List V)
    (v : V) (hv : v ∈ pins) :
    ∀ (ms : List (V × Bool)) (st : GState V),
      st.influencer_nodes = some pins → (gRun st ms).spins v = st.spins v := by
  intro ms
  induction ms with
  | nil => exact fun st _ => rfl
  | cons m rest ih =>
    intro st hinfl
    obtain ⟨hspin, hinfl2⟩ := gStep_pinned_spin st pins hinfl v hv m
    exact (ih (gStep st m) hinfl2).trans hspin

/-! ### DirectedGraphIsing: the magnetization cache is maintained -/

theorem dgMove_magOK {V : Type} [Fintype V] [DecidableEq V] (st : DGState V)
    (node : V) (a : Bool) (hok : dgMagOK st) : dgMagOK (dgMove st node a) := by
  unfold dgMove
  by_cases hacc :
      (decide (2 * st.J * st.spins node * predSum st.edges st.spins node ≤ 0)
        || a) = true
  · rw [if_pos hacc]
    show st.magnetization + 2 * (-(st.spins node)) =
      gMag (Function.update st.spins node (-(st.spins node)))
    rw [gMag_flip, hok]
    ring
  · rw [if_neg hacc]
    exact hok

theorem dgRun_magOK {V : Type} [Fintype V] [DecidableEq V] :
    ∀ (ms : List (V × Bool)) (st : DGState V),
      dgMagOK st → dgMagOK (dgRun st ms) := by
  intro ms
  induction ms with
  | nil => exact fun st hok => hok
  | cons m rest ih =>
    intro st hok
    exact ih (dgMove st m.1 m.2) (dgMove_magOK st m.1 m.2 hok)

/-! ### DualGraphIsing: shape of one move -/

theorem dualStepA_spins_A_of_ne {V : Type} [DecidableEq V] (st : DualState V)
    (node : V) (a : Bool) (v : V) (hv : v ≠ node) :
    (dualStepA st node a).spins_A v = st.spins_A v := by
  unfold dualStepA
  by_cases hacc : (decide (dualDeltaA st node ≤ 0) || a) = true
  · rw [if_pos hacc]
    exact Function.update_noteq hv _ _
  · rw [if_neg hacc]

theorem dualStepA_spins_B {V : Type} [DecidableEq V] (st : DualState V)
    (node : V) (a : Bool) : (dualStepA st node a).spins_B = st.spins_B := by
  unfold dualStepA
  by_cases hacc : (decide (dualDeltaA st node ≤ 0) || a) = true
  · rw [if_pos hacc]
  · rw [if_neg hacc]

theorem dualStepB_spins_B_of_ne {V : Type} [DecidableEq V] (st : DualState V)
    (node : V) (a : Bool) (v : V) (hv : v ≠ node) :
    (dualStepB st node a).spins_B v = st.spins_B v := by
  unfold dualStepB
  by_cases hacc : (decide (dualDeltaB st node ≤ 0) || a) = true
  · rw [if_pos hacc]
    exact Function.update_noteq hv _ _
  · rw [if_neg hacc]

theorem dualStepB_spins_A {V : Type} [DecidableEq V] (st : DualState V)
    (node : V) (a : Bool) : (dualStepB st node a).spins_A = st.spins_A := by
  unfold dualStepB
  by_cases hacc : (decide (dualDeltaB st node ≤ 0) || a) = true
  · rw [if_pos hacc]
  · rw [if_neg hacc]

/-! ### ThresholdEstimator: the trial loop returns the first crossing index -/

theorem trialSteps_eq_find {L dim : ℕ} :
    ∀ (fuel : ℕ) (st : NState L dim) (orc : ℕ → Site L dim × Bool) (thr : ℚ),
      trialSteps st orc fuel thr =
        (List.range fuel).find? fun k =>
          decide (thr < (runOracle st orc (k + 1)).magnetization * (1 / (L : ℚ))) := by
  intro fuel
  induction fuel with
  | zero => intro st orc thr; rfl
  | succ fuel ih =>
    intro st orc thr
    simp only [trialSteps]
    rw [List.range_succ_eq_map]
    by_cases hc :
        thr < (metropolisMove st (orc 0).1 (orc 0).2).magnetization * (1 / (L : ℚ))
    · rw [if_pos hc]
      exact (@List.find?_cons_of_pos ℕ
        (fun k => decide (thr < (runOracle st orc (k + 1)).magnetization * (1 / (L : ℚ))))
        0 (List.map Nat.succ (List.range fuel)) (decide_eq_true hc)).symm
    · rw [if_neg hc]
      have h0 : ¬ ((fun k =>
          decide (thr < (runOracle st orc (k + 1)).magnetization * (1 / (L : ℚ)))) 0
            = true) := by
        simpa using hc
      rw [@List.find?_cons_of_neg ℕ
          (fun k => decide (thr < (runOracle st orc (k + 1)).magnetization * (1 / (L : ℚ))))
          0 (List.map Nat.succ (List.range fuel)) h0,
        List.find?_map,
        ih (metropolisMove st (orc 0).1 (orc 0).2) (fun k => orc (k + 1)) thr]
      rfl

/-! ### compute_properties: sample variances are non-negative -/

theorem sampleVariance_nonneg (n : ℕ) (f : Fin n → ℚ) :
    0 ≤ sampleMean n (fun i => f i ^ 2) - sampleMean n f ^ 2 := by
  rcases Nat.eq_zero_or_pos n with hn | hn
  · subst hn
    simp [sampleMean]
  · have hn0 : (0 : ℚ) < n := by exact_mod_cast hn
    have key : (∑ i : Fin n, f i) ^ 2 ≤ (n : ℚ) * ∑ i : Fin n, f i ^ 2 := by
      have hcs : (∑ i : Fin n, f i) ^ 2 ≤
          (((Finset.univ : Finset (Fin n)).card : ℚ)) * ∑ i : Fin n, f i ^ 2 :=
        sq_sum_le_card_mul_sum_sq
      simpa [Finset.card_univ] using hcs
    have hrw : sampleMean n (fun i => f i ^ 2) - sampleMean n f ^ 2 =
        ((n : ℚ) * (∑ i : Fin n, f i ^ 2) - (∑ i : Fin n, f i) ^ 2) / (n : ℚ) ^ 2 := by
      unfold sampleMean
      field_simp
      ring
    rw [hrw]
    apply div_nonneg
    · linarith [key]
    · positivity

theorem chiEntry_nonneg (N T : ℚ) (n : ℕ) (ms : Fin n → ℚ) (hN : 0 < N)
    (hT : 0 < T) : 0 ≤ chiEntry N T n ms := by
  unfold chiEntry
  apply div_nonneg
  · exact mul_nonneg (by positivity) (sampleVariance_nonneg n ms)
  · linarith

theorem CEntry_nonneg (N T : ℚ) (n : ℕ) (es : Fin n → ℚ) (hN : 0 < N)
    (hT : 0 < T) : 0 ≤ CEntry N T n es := by
  unfold CEntry
  apply div_nonneg
  · exact mul_nonneg (by positivity) (sampleVariance_nonneg n es)
  · positivity

/-! ### Concrete sum expansions used by the examples -/

theorem sum_site_one {L : ℕ} [NeZero L] (f : Site L 1 → ℚ) :
    (∑ x : Site L 1, f x) = ∑ z : ZMod L, f (fun _ => z) := by
  refine Fintype.sum_equiv (Equiv.funUnique (Fin 1) (ZMod L)) f _ (fun x => ?_)
  congr 1
  funext i
  have h0 : i = (0 : Fin 1) := Subsingleton.elim i 0
  rw [h0]
  rfl

theorem sum_zmod_two (f : ZMod 2 → ℚ) : (∑ z : ZMod 2, f z) = f 0 + f 1 :=
  Fin.sum_univ_two f

theorem sum_zmod_one (f : ZMod 1 → ℚ) : (∑ z : ZMod 1, f z) = f 0 :=
  Fin.sum_univ_one f

/-! ### Claims -/

/-- C1 (amended): starting from a freshly initialized state, after any finite
sequence of Metropolis moves the caches equal a full recomputation exactly —
for lattice NormalIsing in normal mode with side L ≥ 2 (equivalently
1 ≠ 0 in ZMod L), and for GraphIsing on a self-loop-free edge list (any
influencer option); for NormalIsing in self_identity mode and for
DirectedGraphIsing this holds for the magnetization cache only — their energy
caches can diverge, as the counterexample shows. -/
theorem c1_incremental_caches :
    (∀ (L dim : ℕ) [NeZero L], (1 : ZMod L) ≠ 0 →
      ∀ (T J h epsilon : ℚ) (sp0 : Site L dim → ℚ)
        (ms : List (Site L dim × Bool)),
        cacheOK (runMoves (freshNState L dim T J h Mode.normal epsilon sp0) ms)) ∧
    (∀ (L dim : ℕ) [NeZero L] (T J h epsilon : ℚ) (mode : Mode)
      (sp0 : Site L dim → ℚ) (ms : List (Site L dim × Bool)),
      magOK (runMoves (freshNState L dim T J h mode epsilon sp0) ms)) ∧
    (∀ (V : Type) [Fintype V] [DecidableEq V] (edges : List (V × V)),
      (∀ e ∈ edges, e.1 ≠ e.2) →
      ∀ (T J : ℚ) (infl : Option (List V)) (sp0 : V → ℚ) (ms : List (V × Bool)),
        gCacheOK (gRun (graphIsingState edges T J infl sp0) ms)) ∧
    (∀ (V : Type) [Fintype V] [DecidableEq V] (edges : List (V × V)) (T J : ℚ)
      (sp0 : V → ℚ) (ms : List (V × Bool)),
      dgMagOK (dgRun (mkDGState edges T J sp0) ms)) := by
  refine ⟨?_, ?_, ?_, ?_⟩
  · intro L dim _ h1 T J h epsilon sp0 ms
    exact runMoves_cacheOK h1 ms _ rfl ⟨rfl, rfl⟩
  · intro L dim _ T J h epsilon mode sp0 ms
    exact runMoves_magOK ms _ rfl
  · intro V _ _ edges hloop T J infl sp0 ms
    exact gRun_cacheOK ms _ hloop ⟨rfl, rfl⟩
  · intro V _ _ edges T J sp0 ms
    exact dgRun_magOK ms _ rfl

/-- C1 counterexample: the claim as stated is false. (a) DirectedGraphIsing on
the directed 3-cycle with all spins +1: after one accepted move at node 0 the
energy cache differs from recomputation (the move adds the predecessor-only ΔE
while both incident edges change). (b) NormalIsing in self_identity mode: an
accepted minority flip adds 0 to the energy cache while the recomputed energy
changes. (c) Even in normal mode the L = 1 lattice diverges (a site is its own
neighbor). Every acceptance used has positive probability. -/
theorem c1_counterexample :
    ((dgMove exDirected 0 true).energy ≠
      gEnergy (dgMove exDirected 0 true).J (dgMove exDirected 0 true).edges
        (dgMove exDirected 0 true).spins) ∧
    ((metropolisMove exSelfId exSite true).energy ≠
      latticeEnergy (metropolisMove exSelfId exSite true).J
        (metropolisMove exSelfId exSite true).h
        (metropolisMove exSelfId exSite true).spins) ∧
    ((metropolisMove exL1 exSite true).energy ≠
      latticeEnergy (metropolisMove exL1 exSite true).J
        (metropolisMove exL1 exSite true).h
        (metropolisMove exL1 exSite true).spins) := by
  refine ⟨?_, ?_, ?_⟩
  · norm_num +decide [exDirected, mkDGState, dgMove, gEnergy, gMag, predSum,
      Function.update_apply, Bool.or_true]
  · norm_num +decide [exSelfId, freshNState, metropolisMove, deltaEnergy,
      latticeEnergy, latticeMag, forwardSum, neighborSum, sum_site_one,
      sum_zmod_two, Fin.sum_univ_one, shiftUp, shiftDown, exSite,
      Function.update_apply]
  · norm_num +decide [exL1, freshNState, metropolisMove, deltaEnergy,
      latticeEnergy, latticeMag, forwardSum, neighborSum, sum_site_one,
      sum_zmod_one, Fin.sum_univ_one, shiftUp, shiftDown, exSite,
      Function.update_apply]

/-- C1 witness: the amended invariant instantiated on the two-site chain
lattice and on a one-edge graph, with all hypotheses discharged concretely. -/
theorem c1_incremental_caches_witness :
    ((1 : ZMod 2) ≠ 0) ∧
    (∀ e ∈ [((0 : Fin 2), (1 : Fin 2))], e.1 ≠ e.2) ∧
    cacheOK (runMoves (freshNState 2 1 2 1 0 Mode.normal (1/2) (fun _ => 1))
      [(exSite, true)]) ∧
    gCacheOK (gRun (graphIsingState [((0 : Fin 2), (1 : Fin 2))] 2 1 none
      (fun _ => 1)) [(0, true)]) := by
  refine ⟨by decide, by decide, ?_, ?_⟩
  · exact c1_incremental_caches.1 2 1 (by decide) 2 1 0 (1/2) (fun _ => 1)
      [(exSite, true)]
  · exact c1_incremental_caches.2.2.1 (Fin 2) [((0 : Fin 2), (1 : Fin 2))]
      (by decide) 2 1 none (fun _ => 1) [(0, true)]

/-- C2 (code bug): the Wolff bond probability computed by the code is
1 − exp(−2·β) for every coupling J — the factor J of the specification is
missing: the code value agrees with the specified p = 1 − exp(−2·β·J) exactly
when J = 1 and differs already at β = 1/2, J = 2. -/
theorem c2_wolff_bond_probability :
    (∀ beta : ℚ, wolff_p beta = wolff_p_spec beta 1) ∧
    wolff_p (1/2) ≠ wolff_p_spec (1/2) 2 := by
  constructor
  · intro b
    unfold wolff_p wolff_p_spec
    norm_num
  · intro hEq
    unfold wolff_p wolff_p_spec at hEq
    have h2 := sub_right_inj.mp hEq
    rw [Real.exp_eq_exp] at h2
    norm_num at h2

/-- C3: a GraphIsing constructed without an influent association never assigns
the influencer_nodes attribute, and every subsequent move() call fails with
AttributeError before performing any spin update, so the plain variant can
never perform a move. -/
theorem c3_plain_graph_move_raises :
    ∀ (V : Type) [Fintype V] [DecidableEq V] (edges : List (V × V)) (T J : ℚ)
      (sp0 : V → ℚ) (node : V) (a : Bool),
      gMove (graphIsingState edges T J none sp0) node a =
        Except.error PyErr.attributeError := by
  intro V _ _ edges T J sp0 node a
  rfl

/-- C4 (amended): in self_identity mode, whenever the chosen site disagrees
with its local majority (s·Σnb < 0), the flip probability compared against the
uniform draw is the constant 1 − ε — independent of ΔE — and an accepted flip
adds exactly 0 to the energy cache while negating the chosen spin. -/
theorem c4_self_identity_minority :
    ∀ (L dim : ℕ) (st : NState L dim) (x : Site L dim),
      st.mode = Mode.self_identity →
      st.spins x * neighborSum st.spins x < 0 →
      prob_flip st x = 1 - (st.epsilon : ℝ) ∧
      (metropolisMove st x true).energy = st.energy ∧
      (metropolisMove st x true).spins x = -(st.spins x) := by
  intro L dim st x hm hmin
  refine ⟨?_, ?_, ?_⟩
  · unfold prob_flip
    simp only [hm]
    exact if_neg (not_le.mpr hmin)
  · show st.energy + deltaEnergy st x = st.energy
    rw [deltaEnergy_minority st x hm hmin, add_zero]
  · show Function.update st.spins x (-(st.spins x)) x = -(st.spins x)
    exact Function.update_same x _ st.spins

/-- C4 counterexample: with ε = 1/4 the minority-branch flip probability the
code computes is 3/4 = 1 − ε, not the ε claimed. -/
theorem c4_counterexample :
    prob_flip exSelfId exSite = 3/4 ∧ (3/4 : ℝ) ≠ 1/4 := by
  constructor
  · unfold prob_flip
    have hmode : exSelfId.mode = Mode.self_identity := rfl
    simp only [hmode]
    have hmin : ¬ (0 ≤ exSelfId.spins exSite * neighborSum exSelfId.spins exSite) := by
      norm_num +decide [exSelfId, freshNState, neighborSum, Fin.sum_univ_one,
        shiftUp, shiftDown, exSite, Function.update_apply]
    rw [if_neg hmin]
    norm_num [exSelfId, freshNState]
  · norm_num

/-- C4 witness: the amended statement instantiated on the two-site chain with
ε = 1/4 and minority site 0. -/
theorem c4_self_identity_minority_witness :
    (exSelfId.mode = Mode.self_identity ∧
      exSelfId.spins exSite * neighborSum exSelfId.spins exSite < 0) ∧
    (prob_flip exSelfId exSite = 1 - (exSelfId.epsilon : ℝ) ∧
      (metropolisMove exSelfId exSite true).energy = exSelfId.energy ∧
      (metropolisMove exSelfId exSite true).spins exSite = -(exSelfId.spins exSite)) := by
  have hmin : exSelfId.spins exSite * neighborSum exSelfId.spins exSite < 0 := by
    norm_num +decide [exSelfId, freshNState, neighborSum, Fin.sum_univ_one,
      shiftUp, shiftDown, exSite, Function.update_apply]
  exact ⟨⟨rfl, hmin⟩, c4_self_identity_minority 2 1 exSelfId exSite rfl hmin⟩

/-- C5 (amended): the constructors perform no temperature validation at all:
for every T ≠ 0 (including every T < 0) construction succeeds silently with
β = 1/T, and at T = 0 the division `beta = 1/T` itself raises
ZeroDivisionError — no input-validation error exists. -/
theorem c5_no_temperature_validation :
    ∀ (L dim : ℕ) [NeZero L] (T J h : ℚ) (mode : Mode) (epsilon : ℚ)
      (sp0 : Site L dim → ℚ) (V : Type) [Fintype V] [DecidableEq V]
      (edges : List (V × V)) (Jg : ℚ) (infl : Option (List V)) (spg : V → ℚ),
      (T ≠ 0 →
        mkNormalIsing L dim T J h mode epsilon sp0 =
          Except.ok (freshNState L dim T J h mode epsilon sp0) ∧
        (freshNState L dim T J h mode epsilon sp0).beta = 1 / T ∧
        mkGraphIsing edges T Jg infl spg =
          Except.ok (graphIsingState edges T Jg infl spg) ∧
        (graphIsingState edges T Jg infl spg).beta = 1 / T) ∧
      mkNormalIsing L dim 0 J h mode epsilon sp0 =
        Except.error PyErr.zeroDivisionError ∧
      mkGraphIsing edges 0 Jg infl spg = Except.error PyErr.zeroDivisionError := by
  intro L dim _ T J h mode epsilon sp0 V _ _ edges Jg infl spg
  refine ⟨fun hT => ⟨?_, rfl, ?_, rfl⟩, ?_, ?_⟩
  · unfold mkNormalIsing
    rw [if_neg hT]
  · unfold mkGraphIsing
    rw [if_neg hT]
  · unfold mkNormalIsing
    rw [if_pos rfl]
  · unfold mkGraphIsing
    rw [if_pos rfl]

/-- C5 counterexample: T = −1 ≤ 0 is accepted without any error and silently
produces the negative β = −1, contradicting the claimed input-validation
error. -/
theorem c5_counterexample :
    mkNormalIsing 2 1 (-1) 1 0 Mode.normal (1/2) (fun _ => 1) =
      Except.ok (freshNState 2 1 (-1) 1 0 Mode.normal (1/2) (fun _ => 1)) ∧
    (freshNState 2 1 (-1) 1 0 Mode.normal (1/2)
      (fun _ => (1 : ℚ))).beta = -1 := by
  constructor
  · unfold mkNormalIsing
    rw [if_neg (by norm_num : (-1 : ℚ) ≠ 0)]
  · show (1 : ℚ) / (-1) = -1
    norm_num

/-- C5 witness: the amended statement at T = 3 on a small lattice and a
one-edge graph. -/
theorem c5_no_temperature_validation_witness :
    ((3 : ℚ) ≠ 0) ∧
    mkNormalIsing 2 1 3 1 0 Mode.normal (1/2) (fun _ => 1) =
      Except.ok (freshNState 2 1 3 1 0 Mode.normal (1/2) (fun _ => 1)) := by
  refine ⟨by norm_num, ?_⟩
  exact ((c5_no_temperature_validation 2 1 3 1 0 Mode.normal (1/2) (fun _ => 1)
    (Fin 2) [((0 : Fin 2), (1 : Fin 2))] 1 none (fun _ => 1)).1
    (by norm_num)).1

/-- C6 (amended): each DualGraphIsing.move() call performs one Metropolis step
on layer A and then one on layer B, each at its own independently chosen random
site, so up to two spins — at most one per layer — change per call; each
layer's acceptance uses ΔE = 2·J·s·Σnb + 2·C·s·(other layer's spin at the same
site), the layer-B step reading the already-updated layer A. -/
theorem c6_dual_move_shape :
    ∀ (V : Type) [DecidableEq V] (st : DualState V) (nA : V) (aA : Bool)
      (nB : V) (aB : Bool),
      (∀ v : V, v ≠ nA → (dualMove st nA aA nB aB).spins_A v = st.spins_A v) ∧
      (∀ v : V, v ≠ nB → (dualMove st nA aA nB aB).spins_B v = st.spins_B v) ∧
      (∀ node : V, dualDeltaA st node =
        2 * st.J_A * st.spins_A node * gNeighborSum st.edges st.spins_A node +
          2 * st.C * st.spins_A node * st.spins_B node) ∧
      (∀ node : V, dualDeltaB st node =
        2 * st.J_B * st.spins_B node * gNeighborSum st.edges st.spins_B node +
          2 * st.C * st.spins_B node * st.spins_A node) := by
  intro V _ st nA aA nB aB
  refine ⟨?_, ?_, fun node => by unfold dualDeltaA; ring,
    fun node => by unfold dualDeltaB; ring⟩
  · intro v hv
    unfold dualMove
    rw [dualStepB_spins_A, dualStepA_spins_A_of_ne st nA aA v hv]
  · intro v hv
    unfold dualMove
    rw [dualStepB_spins_B_of_ne _ nB aB v hv, dualStepA_spins_B]

/-- C6 counterexample: one move() call on the all-+1 dual cycle flips a spin in
layer A (node 0) and a spin in layer B (node 2) — two spins in two layers — so
a call is not one site in one uniformly chosen layer. Both acceptances have
positive probability exp(−β·ΔE) > 0. -/
theorem c6_counterexample :
    (dualMove exDual 0 true 2 true).spins_A 0 = -1 ∧
    (dualMove exDual 0 true 2 true).spins_B 2 = -1 ∧
    exDual.spins_A 0 = 1 ∧ exDual.spins_B 2 = 1 := by
  refine ⟨?_, ?_, rfl, rfl⟩ <;>
    norm_num +decide [exDual, dualReset, mkDualState, dualMove, dualStepA,
      dualStepB, Function.update_apply, Bool.or_true]

/-- C6 witness: the amended statement instantiated on the dual cycle — the
untouched site 1 of layer A is unchanged by the move. -/
theorem c6_dual_move_shape_witness :
    ((1 : Fin 4) ≠ 0) ∧
    (dualMove exDual 0 true 2 true).spins_A 1 = exDual.spins_A 1 := by
  refine ⟨by decide, ?_⟩
  exact (c6_dual_move_shape (Fin 4) exDual 0 true 2 true).1 1 (by decide)

/-- C7 (amended): Scenario C — dual-layer model on the 4-node cycle with
J_A = J_B = 1, C = 0.2, both layers reset to +1 — has initial energy
−4 − 4 − 0.2·4 = −8.8 = −44/5 exactly. -/
theorem c7_dual_initial_energy : dualEnergy exDual = -44/5 := by
  norm_num [exDual, dualReset, mkDualState, dualEnergy, Fin.sum_univ_four]

/-- C7 counterexample: the initial energy of Scenario C is not the claimed
−12.8 = −64/5. -/
theorem c7_counterexample : dualEnergy exDual ≠ -64/5 := by
  norm_num [exDual, dualReset, mkDualState, dualEnergy, Fin.sum_univ_four]

/-- C8: in the influencer variant every pinned node keeps its construction-time
spin value +1 under any number of move() calls, and a move whose randomly
chosen node is pinned returns the state unchanged — no spin, energy or
magnetization change. -/
theorem c8_pinned_nodes :
    ∀ (V : Type) [Fintype V] [DecidableEq V] (edges : List (V × V)) (T J : ℚ)
      (pins : List V) (sp0 : V → ℚ) (v : V), v ∈ pins →
      (∀ ms : List (V × Bool),
        (gRun (graphIsingState edges T J (some pins) sp0) ms).spins v =
          (graphIsingState edges T J (some pins) sp0).spins v) ∧
      (graphIsingState edges T J (some pins) sp0).spins v = 1 ∧
      (∀ (st : GState V) (a : Bool), st.influencer_nodes = some pins →
        gMove st v a = Except.ok st) := by
  intro V _ _ edges T J pins sp0 v hv
  refine ⟨fun ms => gRun_pinned_spin pins v hv ms _ rfl, ?_,
    fun st a hinfl => gMove_pinned st pins hinfl v hv a⟩
  show (if v ∈ pins then (1 : ℚ) else -1) = 1
  exact if_pos hv

/-- C8 witness: on a three-node path with node 0 pinned, the pinned spin is
still +1 after a batch of moves that includes choosing the pinned node. -/
theorem c8_pinned_nodes_witness :
    ((0 : Fin 3) ∈ [(0 : Fin 3)]) ∧
    (gRun (graphIsingState [((0 : Fin 3), (1 : Fin 3)), (1, 2)] 2 1
        (some [0]) (fun _ => 1)) [(0, true), (1, true), (2, false)]).spins 0 =
      (graphIsingState [((0 : Fin 3), (1 : Fin 3)), (1, 2)] 2 1
        (some [0]) (fun _ => 1)).spins 0 := by
  refine ⟨by decide, ?_⟩
  exact (c8_pinned_nodes (Fin 3) [((0 : Fin 3), (1 : Fin 3)), (1, 2)] 2 1 [0]
    (fun _ => 1) 0 (by decide)).1 [(0, true), (1, true), (2, false)]

/-- C9 (amended): for every swept value and trial, a fresh model is built and
moves execute one at a time; the trial stops at the first step whose
magnetization, divided by the model's `size` attribute — the lattice side L,
not the total site count N = L^dim — exceeds the threshold, or when the budget
is exhausted; that step index is recorded, and a trial that never crosses
contributes no sample (filterMap). -/
theorem c9_threshold_estimator :
    ∀ (L dim : ℕ) [NeZero L] (T J h : ℚ) (mode : Mode) (epsilon : ℚ)
      (trials : List ((Site L dim → ℚ) × (ℕ → Site L dim × Bool)))
      (max_step : ℕ) (thr : ℚ),
      iterationsToTresholdVar T J h mode epsilon trials max_step thr =
        trials.filterMap (fun tr =>
          trialSteps (freshNState L dim T J h mode epsilon tr.1) tr.2
            max_step thr) ∧
      ∀ (st : NState L dim) (orc : ℕ → Site L dim × Bool),
        trialSteps st orc max_step thr =
          (List.range max_step).find? fun k =>
            decide (thr <
              (runOracle st orc (k + 1)).magnetization * (1 / (L : ℚ))) := by
  intro L dim _ T J h mode epsilon trials max_step thr
  exact ⟨rfl, fun st orc => trialSteps_eq_find max_step st orc thr⟩

/-- C9 counterexample: on the all-+1 2×2 lattice (L = 2, N = 4) with threshold
3/2 the code records step 0 — magnetization 4 divided by size = 2 gives 2 —
although the claim's normalized magnetization 4/N = 1 never exceeds 3/2. -/
theorem c9_counterexample :
    trialSteps exLattice22 (fun _ => (exSite, false)) 5 (3/2) = some 0 ∧
    ¬ ((3/2 : ℚ) <
      (runOracle exLattice22 (fun _ => (exSite, false)) 1).magnetization /
        (2 ^ 2 : ℚ)) := by
  constructor
  · norm_num [trialSteps, metropolisMove, exLattice22, freshNState, latticeMag,
      Finset.sum_const, Finset.card_univ, Fintype.card_fun, Fintype.card_fin,
      ZMod.card]
  · norm_num [runOracle, metropolisMove, exLattice22, freshNState, latticeMag,
      Finset.sum_const, Finset.card_univ, Fintype.card_fun, Fintype.card_fin,
      ZMod.card]

/-- C9 witness: the first-crossing characterization instantiated on an all-+1
2×2 lattice trial. -/
theorem c9_threshold_estimator_witness :
    trialSteps exLattice22 (fun _ => (exSite, false)) 5 (3/2) =
      (List.range 5).find? fun k =>
        decide ((3/2 : ℚ) <
          (runOracle exLattice22 (fun _ => (exSite, false)) (k + 1)).magnetization *
            (1 / (2 : ℚ))) := by
  exact (c9_threshold_estimator 2 2 2 1 0 Mode.normal (1/2) [] 5 (3/2)).2
    exLattice22 (fun _ => (exSite, false))

/-- C10: with positive N and all per-value temperatures positive, every entry
of the returned susceptibility sequence chi and specific-heat sequence C is
non-negative: each is a sample variance divided by positive constants. -/
theorem c10_nonneg_chi_C :
    ∀ (N : ℚ) (n : ℕ) (pts : List (MeasurePoint n)), 0 < N →
      (∀ p ∈ pts, 0 < p.T) →
      (∀ x ∈ chiList N n pts, 0 ≤ x) ∧ (∀ x ∈ CList N n pts, 0 ≤ x) := by
  intro N n pts hN hT
  constructor
  · intro x hx
    obtain ⟨p, hp, rfl⟩ := List.mem_map.mp hx
    exact chiEntry_nonneg N p.T n p.ms hN (hT p hp)
  · intro x hx
    obtain ⟨p, hp, rfl⟩ := List.mem_map.mp hx
    exact CEntry_nonneg N p.T n p.es hN (hT p hp)

/-- C10 witness: a concrete single-point run with N = 4, T = 2 and two samples
per moment. -/
theorem c10_nonneg_chi_C_witness :
    (0 < (4 : ℚ)) ∧
    (∀ p ∈ [(⟨2, ![1, 3], ![0, 2]⟩ : MeasurePoint 2)], 0 < p.T) ∧
    (∀ x ∈ chiList 4 2 [(⟨2, ![1, 3], ![0, 2]⟩ : MeasurePoint 2)], 0 ≤ x) ∧
    (∀ x ∈ CList 4 2 [(⟨2, ![1, 3], ![0, 2]⟩ : MeasurePoint 2)], 0 ≤ x) := by
  have hT : ∀ p ∈ [(⟨2, ![1, 3], ![0, 2]⟩ : MeasurePoint 2)], 0 < p.T := by
    intro p hp
    rw [List.mem_singleton] at hp
    subst hp
    norm_num
  have h := c10_nonneg_chi_C 4 2 [⟨2, ![1, 3], ![0, 2]⟩] (by norm_num) hT
  exact ⟨by norm_num, hT, h.1, h.2⟩

end Ising

